import Mathlib

/-!
Shallow embedding of the SI/TI calculator (siti, `siti/__main__.py`).

Frames are 2D luma arrays; we model a frame as an explicit height/width
together with a total sample function.  Sample values are rationals
(integer 8-bit samples, promoted for computation; the range conversion
produces rounded — hence integer-valued — samples).  Floating point is
idealised by exact rational arithmetic, with real square roots where the
code calls `np.hypot` / `.std()`.
-/

namespace Siti

/-- A decoded 2D luma frame: `data i j` is the sample at row `i`, column `j`
(`(height, width)` layout, as in the numpy arrays of the source). -/
structure Frame where
  h : ℕ
  w : ℕ
  data : ℕ → ℕ → ℚ

/-- Errors surfaced by the embedded code.  `noVideoStream` and
`rangeViolation` are the two explicit `RuntimeError`s of the source;
`emptyReduce` is numpy's `ValueError` for `np.min`/`np.max` of an empty
array; `broadcastMismatch` is numpy's `ValueError` for an impossible
broadcast in `frame_data - previous_frame_data`. -/
inductive SitiError where
  | noVideoStream
  | rangeViolation
  | emptyReduce
  | broadcastMismatch
  deriving DecidableEq, Repr

/-- Row-major flattening of the samples of a frame. -/
def flattenF (f : Frame) : List ℚ :=
  (List.range f.h).flatMap fun i => (List.range f.w).map fun j => f.data i j

/-- Minimum of a list of samples (`np.min`; the empty case is unreachable in
the source, which raises on empty input — callers guard it). -/
def listMin : List ℚ → ℚ
  | [] => 0
  | x :: xs => xs.foldl min x

/-- Maximum of a list of samples (`np.max`). -/
def listMax : List ℚ → ℚ
  | [] => 0
  | x :: xs => xs.foldl max x

/-- Mean of a list of samples (`np.mean`; division by zero is `0` in Lean,
only reachable for empty input). -/
def meanQ (xs : List ℚ) : ℚ := xs.sum / xs.length

/-- Population variance of a list of samples: mean of squared deviations,
divisor `N` (`np.std` squared). -/
def varianceQ (xs : List ℚ) : ℚ :=
  (xs.map fun x => (x - meanQ xs) ^ 2).sum / xs.length

/-- Rounding to the nearest integer, ties to even — the semantics of
`np.around` used at `__main__.py:82`. -/
def roundHalfEven (q : ℚ) : ℤ :=
  if q - ⌊q⌋ < 1 / 2 then ⌊q⌋
  else if 1 / 2 < q - ⌊q⌋ then ⌊q⌋ + 1
  else if ⌊q⌋ % 2 = 0 then ⌊q⌋ else ⌊q⌋ + 1

/-- Limited-to-full range conversion of one sample:
`np.around((y - 16) / ((235 - 16) / 255))` (`__main__.py:82`). -/
def convertSample (v : ℚ) : ℤ :=
  roundHalfEven ((v - 16) / ((235 - 16) / 255))

/-- The `_convert_range` function (`__main__.py:75`): raise if any sample is
below 16 or above 235, otherwise rescale every sample. -/
def convert_range (f : Frame) : Except SitiError Frame :=
  if flattenF f = [] then .error .emptyReduce
  else if listMin (flattenF f) < 16 ∨ 235 < listMax (flattenF f) then
    .error .rangeViolation
  else
    .ok ⟨f.h, f.w, fun i j => ((convertSample (f.data i j) : ℤ) : ℚ)⟩

/-- Per-frame range handling of the frame sources (`__main__.py:140` and
`__main__.py:173`): full-range frames pass through, otherwise
`_convert_range` is applied. -/
def readFrameStep (fullRange : Bool) (f : Frame) : Except SitiError Frame :=
  if fullRange then .ok f else convert_range f

/-- Frame count of a raw YUV420p file:
`file_size // (width * height * 3 // 2)` (`__main__.py:115` and
`__main__.py:186`; Python `//` on naturals is Lean `Nat` division, and
`width * height * 3 // 2` floors the frame size first). -/
def num_frames_yuv (fileSize width height : ℕ) : ℕ :=
  fileSize / (width * height * 3 / 2)

/-- Modelled from the spec words of the claim under test (a refinement
comparison point, not source code): frame count as
`floor(file_size / (width * height * 3 / 2))` with exact (rational)
division, i.e. `floor(2 * file_size / (3 * width * height))`. -/
def spec_frame_count (fileSize width height : ℕ) : ℕ :=
  2 * fileSize / (3 * (width * height))

/-! Numpy 2D broadcasting, as used by `frame_data - previous_frame_data`
in `ti` (`__main__.py:68`): two sizes are compatible when they are equal
or one of them is 1; on a broadcast axis of size 1 the single entry is
repeated. -/

/-- Whether two 2D shapes are numpy-broadcast-compatible. -/
def broadcastCompatible (a b : Frame) : Bool :=
  (a.h == b.h || a.h == 1 || b.h == 1) && (a.w == b.w || a.w == 1 || b.w == 1)

/-- Index into an axis of size `n` after broadcasting to a larger axis. -/
def bIdx (n i : ℕ) : ℕ := if n = 1 then 0 else i

/-- Broadcast elementwise subtraction `a - b` of two compatible frames. -/
def bSub (a b : Frame) : Frame :=
  ⟨max a.h b.h, max a.w b.w, fun i j =>
    a.data (bIdx a.h i) (bIdx a.w j) - b.data (bIdx b.h i) (bIdx b.w j)⟩

/-- Population standard deviation of a list of rational samples
(`np.std`: square root of the mean of squared deviations, divisor `N`). -/
noncomputable def popStd (xs : List ℚ) : ℝ :=
  Real.sqrt ((varianceQ xs : ℚ) : ℝ)

/-- The `ti` function (`__main__.py:49`): `None` for the first frame,
otherwise the standard deviation of the frame difference.  The difference
follows numpy semantics: broadcast when compatible, `ValueError`
(`broadcastMismatch`) otherwise. -/
noncomputable def ti (frame_data : Frame) (previous_frame_data : Option Frame) :
    Except SitiError (Option ℝ) :=
  match previous_frame_data with
  | none => .ok none
  | some prev =>
    if broadcastCompatible frame_data prev then
      .ok (some (popStd (flattenF (bSub frame_data prev))))
    else
      .error .broadcastMismatch

/-! The SI computation (`__main__.py:29`): `scipy.ndimage.sobel` along each
axis (separable correlation with derivative weights `[-1, 0, 1]` on the
chosen axis and smoothing weights `[1, 2, 1]` on the other axis, boundary
mode `reflect`), per-pixel `np.hypot`, crop of the outer 1-pixel border,
population standard deviation. -/

/-- Boundary handling of `scipy.ndimage` mode `reflect` for a radius-1
kernel on an axis of size `n`: index `-1` reflects to `0` and index `n`
reflects to `n - 1` (larger excursions cannot occur with radius 1). -/
def reflectIdx (n : ℕ) (i : ℤ) : ℕ :=
  if i < 0 then 0 else if (n : ℤ) ≤ i then n - 1 else i.toNat

/-- Sample access with `reflect` boundary extension. -/
def atR (f : Frame) (i j : ℤ) : ℚ :=
  f.data (reflectIdx f.h i) (reflectIdx f.w j)

/-- Length-3 correlation along axis 0 (rows), centre origin:
`scipy.ndimage.correlate1d(input, [w0, w1, w2], axis=0, mode="reflect")`. -/
def correlate1d0 (w0 w1 w2 : ℚ) (f : Frame) : Frame :=
  ⟨f.h, f.w, fun i j =>
    w0 * atR f ((i : ℤ) - 1) j + w1 * atR f i j + w2 * atR f ((i : ℤ) + 1) j⟩

/-- Length-3 correlation along axis 1 (columns), centre origin. -/
def correlate1d1 (w0 w1 w2 : ℚ) (f : Frame) : Frame :=
  ⟨f.h, f.w, fun i j =>
    w0 * atR f i ((j : ℤ) - 1) + w1 * atR f i j + w2 * atR f i ((j : ℤ) + 1)⟩

/-- Sobel operator along axis 0: derivative weights on axis 0, then
smoothing weights on axis 1 (`scipy.ndimage.sobel(frame_data, axis=0)`). -/
def sobelAxis0 (f : Frame) : Frame :=
  correlate1d1 1 2 1 (correlate1d0 (-1) 0 1 f)

/-- Sobel operator along axis 1 (`scipy.ndimage.sobel(frame_data, axis=1)`). -/
def sobelAxis1 (f : Frame) : Frame :=
  correlate1d0 1 2 1 (correlate1d1 (-1) 0 1 f)

/-- Mean of a list of real values. -/
noncomputable def meanR (xs : List ℝ) : ℝ := xs.sum / xs.length

/-- Population standard deviation of a list of real values. -/
noncomputable def popStdR (xs : List ℝ) : ℝ :=
  Real.sqrt ((xs.map fun x => (x - meanR xs) ^ 2).sum / xs.length)

/-- The `si` function (`__main__.py:29`): gradient magnitudes via
`np.hypot(sob_x, sob_y)`, cropped to `[1:-1, 1:-1]`, then `.std()`. -/
noncomputable def si (frame_data : Frame) : ℝ :=
  popStdR ((List.range (frame_data.h - 2)).flatMap fun i =>
    (List.range (frame_data.w - 2)).map fun j =>
      Real.sqrt (((sobelAxis0 frame_data).data (i + 1) (j + 1) : ℝ) ^ 2 +
        ((sobelAxis1 frame_data).data (i + 1) (j + 1) : ℝ) ^ 2))

/-! The driver loop of `calculate_si_ti` (`__main__.py:199`), over the
sequence of frames yielded by the selected frame source.  `ti_values`
starts as `[0.0]` (`__main__.py:219`); per frame the SI value is appended,
the TI value is appended when it is not `None`, and with a known frame
count `num_frames` the loop returns as soon as `current_frame` reaches it
(`__main__.py:262`). -/

/-- One iteration state step of the `calculate_si_ti` loop. -/
noncomputable def calcGo (numFrames : Option ℕ) :
    List Frame → Option Frame → List ℝ → List ℝ → ℕ →
    Except SitiError (List ℝ × List ℝ × ℕ)
  | [], _, si_values, ti_values, current => .ok (si_values, ti_values, current)
  | f :: rest, prev, si_values, ti_values, current =>
    let si_values' := si_values ++ [si f]
    match ti f prev with
    | .error e => .error e
    | .ok tv =>
      let ti_values' := match tv with
        | none => ti_values
        | some v => ti_values ++ [v]
      let current' := current + 1
      match numFrames with
      | some n =>
        if n ≤ current' then .ok (si_values', ti_values', current')
        else calcGo numFrames rest (some f) si_values' ti_values' current'
      | none => calcGo numFrames rest (some f) si_values' ti_values' current'

/-- The `calculate_si_ti` aggregation (`__main__.py:199`): returns the SI
sequence, the TI sequence and the processed frame count.  `frames` is the
sequence produced by the frame source; `numFrames` is the optional frame
count (`None` when the container cannot report one, and a frame-source
exception aborts the whole computation). -/
noncomputable def calculate_si_ti (frames : List Frame) (numFrames : Option ℕ) :
    Except SitiError (List ℝ × List ℝ × ℕ) :=
  calcGo numFrames frames none [] [0] 0

/-! The container frame source (`__main__.py:147`): the opened container is
the external collaborator, modelled by the number of video streams it
exposes and the decoded grayscale frames it yields. -/

/-- An opened demuxed container, as seen through `av.open`. -/
structure Container where
  videoStreamCount : ℕ
  frames : List Frame

/-- Range processing of all decoded frames of a container, in order. -/
def processFrames (fullRange : Bool) : List Frame → Except SitiError (List Frame)
  | [] => .ok []
  | f :: fs =>
    match readFrameStep fullRange f with
    | .error e => .error e
    | .ok g =>
      match processFrames fullRange fs with
      | .error e => .error e
      | .ok gs => .ok (g :: gs)

/-- The `read_container` source (`__main__.py:147`): raise `noVideoStream`
when the container exposes no video stream (`__main__.py:163`), otherwise
yield every decoded frame after range handling. -/
def read_container (c : Container) (fullRange : Bool) : Except SitiError (List Frame) :=
  if c.videoStreamCount = 0 then .error .noVideoStream
  else processFrames fullRange c.frames

/-! Helper lemmas. -/

lemma convert_range_ne_noVideo (f : Frame) :
    convert_range f ≠ .error .noVideoStream := by
  unfold convert_range
  split
  · simp
  · split <;> simp

lemma readFrameStep_ne_noVideo (fullRange : Bool) (f : Frame) :
    readFrameStep fullRange f ≠ .error .noVideoStream := by
  unfold readFrameStep
  split
  · simp
  · exact convert_range_ne_noVideo f

lemma processFrames_ne_noVideo (fullRange : Bool) (fs : List Frame) :
    processFrames fullRange fs ≠ .error .noVideoStream := by
  induction fs with
  | nil => simp [processFrames]
  | cons f fs ih =>
    unfold processFrames
    cases h : readFrameStep fullRange f with
    | error e =>
      intro hc
      injection hc with he
      exact readFrameStep_ne_noVideo fullRange f (he ▸ h)
    | ok g =>
      cases h2 : processFrames fullRange fs with
      | error e =>
        intro hc
        injection hc with he
        exact ih (he ▸ h2)
      | ok gs => simp

lemma mem_flattenF {f : Frame} {a : ℚ} :
    a ∈ flattenF f ↔ ∃ i, i < f.h ∧ ∃ j, j < f.w ∧ f.data i j = a := by
  simp [flattenF]

lemma varianceQ_zero (xs : List ℚ) (h : ∀ x ∈ xs, x = 0) : varianceQ xs = 0 := by
  have hs : xs.sum = 0 := List.sum_eq_zero h
  unfold varianceQ meanQ
  rw [hs, zero_div]
  have h2 : (xs.map fun x => (x - 0) ^ 2).sum = 0 := by
    apply List.sum_eq_zero
    intro y hy
    rw [List.mem_map] at hy
    obtain ⟨x, hx, rfl⟩ := hy
    rw [h x hx]
    norm_num
  rw [h2, zero_div]

lemma popStd_zero (xs : List ℚ) (h : ∀ x ∈ xs, x = 0) : popStd xs = 0 := by
  rw [popStd, varianceQ_zero xs h]
  simp

/-! Claim theorems. -/

/-- C4 (counterexample): the claim states the raw-planar frame count equals
`floor(file_size / (width * height * 3 / 2))` for every positive width and
height; at `file_size = 3`, `width = height = 1` the code computes
`3 // (1 * 1 * 3 // 2) = 3 // 1 = 3` while the claimed formula gives
`floor(3 / 1.5) = 2`. -/
theorem num_frames_yuv_claim_counterexample :
    num_frames_yuv 3 1 1 = 3 ∧ spec_frame_count 3 1 1 = 2 ∧
      num_frames_yuv 3 1 1 ≠ spec_frame_count 3 1 1 := by
  refine ⟨by decide, by decide, by decide⟩

/-- C4 (amended): whenever `width * height` is even (as for every genuine
YUV420 geometry), the frame count computed by the code equals
`floor(file_size / (width * height * 3 / 2))`, and a file of size
`k * (width * height * 3 / 2) + 1` reports exactly `k` frames. -/
theorem num_frames_yuv_spec (fileSize k width height : ℕ)
    (hw : 0 < width) (hh : 0 < height) (hdvd : 2 ∣ width * height) :
    num_frames_yuv fileSize width height = spec_frame_count fileSize width height ∧
      num_frames_yuv (k * (width * height * 3 / 2) + 1) width height = k := by
  obtain ⟨m, hm⟩ := hdvd
  have hm0 : 0 < m := by
    rcases Nat.eq_zero_or_pos m with h0 | h0
    · exfalso; rw [h0, Nat.mul_zero] at hm
      exact absurd hm (Nat.mul_ne_zero hw.ne' hh.ne')
    · exact h0
  have hsize : width * height * 3 / 2 = 3 * m := by omega
  constructor
  · unfold num_frames_yuv spec_frame_count
    rw [hsize, hm]
    have : 3 * (2 * m) = 2 * (3 * m) := by ring
    rw [this, Nat.mul_div_mul_left _ _ (by norm_num)]
  · unfold num_frames_yuv
    rw [hsize]
    have h3m : 0 < 3 * m := by omega
    rw [Nat.mul_comm k (3 * m), Nat.mul_add_div h3m]
    rw [Nat.div_eq_of_lt (by omega)]
    omega

/-- C4 (witness for the amended theorem): at `width = height = 2`
(frame size `6`), a 13-byte file reports `2` frames, matching the spec
formula, and `2 * 6 + 1 = 13` bytes report exactly `2` frames. -/
theorem num_frames_yuv_spec_witness :
    0 < 2 ∧ 0 < 2 ∧ 2 ∣ 2 * 2 ∧
      (num_frames_yuv 13 2 2 = spec_frame_count 13 2 2 ∧
        num_frames_yuv (2 * (2 * 2 * 3 / 2) + 1) 2 2 = 2) :=
  ⟨by decide, by decide, by decide,
    num_frames_yuv_spec 13 2 2 2 (by decide) (by decide) (by decide)⟩

/-- C6: the TI computation yields the distinct no-value signal (`none`,
not the number `0.0`) exactly when there is no previous frame. -/
theorem ti_none_iff_first_frame (f : Frame) (prev : Option Frame) :
    ti f prev = .ok none ↔ prev = none := by
  cases prev with
  | none => simp [ti]
  | some p =>
    simp only [ti]
    split <;> simp

/-- C9: the container source fails with the no-video-stream error if and
only if the opened container exposes no video stream; the check happens
before any frame is processed, and a container with at least one video
stream never produces this error. -/
theorem read_container_noVideoStream_iff (c : Container) (fullRange : Bool) :
    read_container c fullRange = .error .noVideoStream ↔ c.videoStreamCount = 0 := by
  unfold read_container
  split
  · simp_all
  · simp_all [processFrames_ne_noVideo fullRange c.frames]

lemma foldl_min_lt_iff (xs : List ℚ) (x c : ℚ) :
    xs.foldl min x < c ↔ x < c ∨ ∃ a ∈ xs, a < c := by
  induction xs generalizing x with
  | nil => simp
  | cons y ys ih =>
    rw [List.foldl_cons, ih]
    constructor
    · rintro (hmin | ⟨a, ha, hac⟩)
      · rcases lt_or_le x y with hxy | hxy
        · left; rwa [min_eq_left hxy.le] at hmin
        · right; exact ⟨y, List.mem_cons_self y ys, by rwa [min_eq_right hxy] at hmin⟩
      · exact Or.inr ⟨a, List.mem_cons_of_mem y ha, hac⟩
    · rintro (hx | ⟨a, ha, hac⟩)
      · exact Or.inl (lt_of_le_of_lt (min_le_left x y) hx)
      · rcases List.mem_cons.mp ha with rfl | ha
        · exact Or.inl (lt_of_le_of_lt (min_le_right x a) hac)
        · exact Or.inr ⟨a, ha, hac⟩

lemma foldl_max_gt_iff (xs : List ℚ) (x c : ℚ) :
    c < xs.foldl max x ↔ c < x ∨ ∃ a ∈ xs, c < a := by
  induction xs generalizing x with
  | nil => simp
  | cons y ys ih =>
    rw [List.foldl_cons, ih]
    constructor
    · rintro (hmax | ⟨a, ha, hac⟩)
      · rcases lt_or_le x y with hxy | hxy
        · right; exact ⟨y, List.mem_cons_self y ys, by rwa [max_eq_right hxy.le] at hmax⟩
        · left; rwa [max_eq_left hxy] at hmax
      · exact Or.inr ⟨a, List.mem_cons_of_mem y ha, hac⟩
    · rintro (hx | ⟨a, ha, hac⟩)
      · exact Or.inl (lt_of_lt_of_le hx (le_max_left x y))
      · rcases List.mem_cons.mp ha with rfl | ha
        · exact Or.inl (lt_of_lt_of_le hac (le_max_right x a))
        · exact Or.inr ⟨a, ha, hac⟩

lemma listMin_lt_iff {xs : List ℚ} (hne : xs ≠ []) (c : ℚ) :
    listMin xs < c ↔ ∃ a ∈ xs, a < c := by
  cases xs with
  | nil => exact absurd rfl hne
  | cons x ys =>
    rw [listMin, foldl_min_lt_iff]
    constructor
    · rintro (hx | ⟨a, ha, hac⟩)
      · exact ⟨x, List.mem_cons_self x ys, hx⟩
      · exact ⟨a, List.mem_cons_of_mem x ha, hac⟩
    · rintro ⟨a, ha, hac⟩
      rcases List.mem_cons.mp ha with rfl | ha
      · exact Or.inl hac
      · exact Or.inr ⟨a, ha, hac⟩

lemma listMax_gt_iff {xs : List ℚ} (hne : xs ≠ []) (c : ℚ) :
    c < listMax xs ↔ ∃ a ∈ xs, c < a := by
  cases xs with
  | nil => exact absurd rfl hne
  | cons x ys =>
    rw [listMax, foldl_max_gt_iff]
    constructor
    · rintro (hx | ⟨a, ha, hac⟩)
      · exact ⟨x, List.mem_cons_self x ys, hx⟩
      · exact ⟨a, List.mem_cons_of_mem x ha, hac⟩
    · rintro ⟨a, ha, hac⟩
      rcases List.mem_cons.mp ha with rfl | ha
      · exact Or.inl hac
      · exact Or.inr ⟨a, ha, hac⟩

lemma flattenF_ne_nil {f : Frame} (hh : 0 < f.h) (hw : 0 < f.w) :
    flattenF f ≠ [] := by
  have : f.data 0 0 ∈ flattenF f := mem_flattenF.mpr ⟨0, hh, 0, hw, rfl⟩
  exact List.ne_nil_of_mem this

lemma range_condition_iff {f : Frame} (hh : 0 < f.h) (hw : 0 < f.w) :
    (listMin (flattenF f) < 16 ∨ 235 < listMax (flattenF f)) ↔
      ∃ i, i < f.h ∧ ∃ j, j < f.w ∧ (f.data i j < 16 ∨ 235 < f.data i j) := by
  have hne := flattenF_ne_nil hh hw
  rw [listMin_lt_iff hne, listMax_gt_iff hne]
  constructor
  · rintro (⟨a, ha, hac⟩ | ⟨a, ha, hac⟩) <;>
      · obtain ⟨i, hi, j, hj, hval⟩ := mem_flattenF.mp ha
        exact ⟨i, hi, j, hj, by rw [hval]; first | exact Or.inl hac | exact Or.inr hac⟩
  · rintro ⟨i, hi, j, hj, hlo | hhi⟩
    · exact Or.inl ⟨f.data i j, mem_flattenF.mpr ⟨i, hi, j, hj, rfl⟩, hlo⟩
    · exact Or.inr ⟨f.data i j, mem_flattenF.mpr ⟨i, hi, j, hj, rfl⟩, hhi⟩

lemma roundHalfEven_near (q : ℚ) : |((roundHalfEven q : ℤ) : ℚ) - q| ≤ 1 / 2 := by
  have h0 : ((⌊q⌋ : ℤ) : ℚ) ≤ q := Int.floor_le q
  have h1 : q < ((⌊q⌋ : ℤ) : ℚ) + 1 := Int.lt_floor_add_one q
  unfold roundHalfEven
  split
  · next h => rw [abs_le]; constructor <;> linarith
  · next h =>
    split
    · next h2 => push_cast; rw [abs_le]; constructor <;> linarith
    · next h2 =>
      have heq : q - ((⌊q⌋ : ℤ) : ℚ) = 1 / 2 := le_antisymm (not_lt.mp h2) (not_lt.mp h)
      split
      · rw [abs_le]; constructor <;> linarith
      · push_cast; rw [abs_le]; constructor <;> linarith

lemma convertSample_bounds {v : ℚ} (h16 : 16 ≤ v) (h235 : v ≤ 235) :
    0 ≤ ((convertSample v : ℤ) : ℚ) ∧ ((convertSample v : ℤ) : ℚ) ≤ 255 := by
  have hx0 : 0 ≤ (v - 16) / ((235 - 16) / 255) :=
    div_nonneg (by linarith) (by norm_num)
  have hx255 : (v - 16) / ((235 - 16) / 255) ≤ 255 := by
    rw [div_le_iff₀ (by norm_num)]
    linarith
  have hnear := roundHalfEven_near ((v - 16) / ((235 - 16) / 255))
  rw [abs_le] at hnear
  unfold convertSample
  constructor
  · have hq : (-1 : ℚ) < ((roundHalfEven ((v - 16) / ((235 - 16) / 255)) : ℤ) : ℚ) := by
      linarith [hnear.1]
    have hz : (-1 : ℤ) < roundHalfEven ((v - 16) / ((235 - 16) / 255)) := by
      exact_mod_cast hq
    have : (0 : ℤ) ≤ roundHalfEven ((v - 16) / ((235 - 16) / 255)) := by omega
    exact_mod_cast this
  · have hq : ((roundHalfEven ((v - 16) / ((235 - 16) / 255)) : ℤ) : ℚ) < 256 := by
      linarith [hnear.2]
    have hz : roundHalfEven ((v - 16) / ((235 - 16) / 255)) < 256 := by
      exact_mod_cast hq
    have : roundHalfEven ((v - 16) / ((235 - 16) / 255)) ≤ 255 := by omega
    exact_mod_cast this

/-- C5: under Limited mode each sample `v` of `[16, 235]` is mapped to the
nearest integer of the proportional value `(v - 16) * 255 / 219` — in
particular `16 ↦ 0`, `235 ↦ 255`, every output lies in `[0, 255]` — while
under Full mode every frame passes through unchanged. -/
theorem convert_range_linear (v : ℚ) (h1 : 16 ≤ v) (h2 : v ≤ 235) :
    convertSample 16 = 0 ∧ convertSample 235 = 255 ∧
      |((convertSample v : ℤ) : ℚ) - (v - 16) * (255 / 219)| ≤ 1 / 2 ∧
      (0 ≤ ((convertSample v : ℤ) : ℚ) ∧ ((convertSample v : ℤ) : ℚ) ≤ 255) ∧
      ∀ f : Frame, readFrameStep true f = .ok f := by
  refine ⟨by norm_num [convertSample, roundHalfEven],
    by norm_num [convertSample, roundHalfEven], ?_, convertSample_bounds h1 h2,
    fun f => rfl⟩
  have heq : (v - 16) / ((235 - 16) / 255) = (v - 16) * (255 / 219) := by
    rw [div_div_eq_mul_div, mul_div_assoc]
    norm_num
  unfold convertSample
  rw [← heq]
  exact roundHalfEven_near ((v - 16) / ((235 - 16) / 255))

/-- C5 (witness): at `v = 100` the rescaled value is within half a unit of
`(100 - 16) * 255 / 219`, the endpoints map to `0` and `255`, and full
range passes frames through. -/
theorem convert_range_linear_witness :
    (16 : ℚ) ≤ 100 ∧ (100 : ℚ) ≤ 235 ∧
      (convertSample 16 = 0 ∧ convertSample 235 = 255 ∧
        |((convertSample 100 : ℤ) : ℚ) - (100 - 16) * (255 / 219)| ≤ 1 / 2 ∧
        (0 ≤ ((convertSample 100 : ℤ) : ℚ) ∧ ((convertSample 100 : ℤ) : ℚ) ≤ 255) ∧
        ∀ f : Frame, readFrameStep true f = .ok f) :=
  ⟨by norm_num, by norm_num, convert_range_linear 100 (by norm_num) (by norm_num)⟩

/-- C10: a frame whose samples all lie in `[16, 235]` passes the limited-range
conversion without error, and every converted sample lies in `[0, 255]`. -/
theorem convert_range_in_range (f : Frame) (hh : 0 < f.h) (hw : 0 < f.w)
    (hr : ∀ i, i < f.h → ∀ j, j < f.w → 16 ≤ f.data i j ∧ f.data i j ≤ 235) :
    ∃ g, convert_range f = .ok g ∧ g.h = f.h ∧ g.w = f.w ∧
      ∀ i, i < f.h → ∀ j, j < f.w → 0 ≤ g.data i j ∧ g.data i j ≤ 255 := by
  have hcond : ¬(listMin (flattenF f) < 16 ∨ 235 < listMax (flattenF f)) := by
    rw [range_condition_iff hh hw]
    rintro ⟨i, hi, j, hj, hlo | hhi⟩
    · exact absurd hlo (not_lt.mpr (hr i hi j hj).1)
    · exact absurd hhi (not_lt.mpr (hr i hi j hj).2)
  refine ⟨⟨f.h, f.w, fun i j => ((convertSample (f.data i j) : ℤ) : ℚ)⟩,
    ?_, rfl, rfl, ?_⟩
  · unfold convert_range
    rw [if_neg (flattenF_ne_nil hh hw), if_neg hcond]
  · intro i hi j hj
    exact convertSample_bounds (hr i hi j hj).1 (hr i hi j hj).2

/-- C10 (witness): the all-16 1×1 frame converts without error to samples
inside `[0, 255]`. -/
theorem convert_range_in_range_witness :
    0 < (Frame.mk 1 1 fun _ _ => 16).h ∧ 0 < (Frame.mk 1 1 fun _ _ => 16).w ∧
      (∃ g, convert_range ⟨1, 1, fun _ _ => 16⟩ = .ok g ∧
        g.h = (Frame.mk 1 1 fun _ _ => 16).h ∧ g.w = (Frame.mk 1 1 fun _ _ => 16).w ∧
        ∀ i, i < (Frame.mk 1 1 fun _ _ => 16).h →
          ∀ j, j < (Frame.mk 1 1 fun _ _ => 16).w → 0 ≤ g.data i j ∧ g.data i j ≤ 255) :=
  ⟨by decide, by decide,
    convert_range_in_range ⟨1, 1, fun _ _ => 16⟩ (by decide) (by decide)
      (fun i _ j _ => ⟨by norm_num, by norm_num⟩)⟩

/-- C3: under Limited mode the frame source raises the range-assumption
error exactly when some sample of the frame is below 16 or above 235;
under Full mode it never raises that error. -/
theorem range_error_iff (f : Frame) (hh : 0 < f.h) (hw : 0 < f.w) :
    (readFrameStep false f = .error .rangeViolation ↔
      ∃ i, i < f.h ∧ ∃ j, j < f.w ∧ (f.data i j < 16 ∨ 235 < f.data i j)) ∧
      ∀ g : Frame, readFrameStep true g ≠ .error .rangeViolation := by
  constructor
  · unfold readFrameStep convert_range
    rw [if_neg (by simp), if_neg (flattenF_ne_nil hh hw)]
    rw [← range_condition_iff hh hw]
    by_cases hc : listMin (flattenF f) < 16 ∨ 235 < listMax (flattenF f)
    · simp [hc]
    · simp [hc]
  · intro g
    simp [readFrameStep]

/-- C3 (witness): a 1×1 frame with sample 250 triggers the range error in
Limited mode (250 > 235) and never in Full mode. -/
theorem range_error_iff_witness :
    0 < (Frame.mk 1 1 fun _ _ => 250).h ∧ 0 < (Frame.mk 1 1 fun _ _ => 250).w ∧
      ((readFrameStep false ⟨1, 1, fun _ _ => 250⟩ = .error .rangeViolation ↔
        ∃ i, i < (Frame.mk 1 1 fun _ _ => 250).h ∧
          ∃ j, j < (Frame.mk 1 1 fun _ _ => 250).w ∧
            ((Frame.mk 1 1 fun _ _ => 250).data i j < 16 ∨
              235 < (Frame.mk 1 1 fun _ _ => 250).data i j)) ∧
        ∀ g : Frame, readFrameStep true g ≠ .error .rangeViolation) :=
  ⟨by decide, by decide,
    range_error_iff ⟨1, 1, fun _ _ => 250⟩ (by decide) (by decide)⟩

/-- C2 (evaluation at the failing input): the TI computation carries no
dimension check (only TODO comments at `__main__.py:62`), so for a 1×3
frame against a 2×3 previous frame — heights differ — numpy broadcasting
makes `(frame_data - previous_frame_data).std()` return the numeric value
`0.0` instead of failing with a dimension-mismatch error. -/
theorem ti_mismatched_shapes_returns_value :
    (Frame.mk 1 3 fun _ _ => 0).h ≠ (Frame.mk 2 3 fun _ _ => 0).h ∧
      ti ⟨1, 3, fun _ _ => 0⟩ (some ⟨2, 3, fun _ _ => 0⟩) = .ok (some 0) := by
  constructor
  · decide
  · have hbc : broadcastCompatible ⟨1, 3, fun _ _ => 0⟩ ⟨2, 3, fun _ _ => 0⟩ = true := rfl
    have hz : popStd (flattenF (bSub ⟨1, 3, fun _ _ => 0⟩ ⟨2, 3, fun _ _ => 0⟩)) = 0 := by
      apply popStd_zero
      intro x hx
      rw [mem_flattenF] at hx
      obtain ⟨i, _, j, _, hval⟩ := hx
      rw [← hval]
      simp [bSub]
    simp [ti, hbc, hz]

/-- C8: the TI of a frame against an identical previous frame is zero
(the pixel-wise difference is identically zero, hence so is its standard
deviation). -/
theorem ti_identical_frames (f : Frame) (_hne : 0 < f.h * f.w) :
    ti f (some f) = .ok (some 0) := by
  have hbc : broadcastCompatible f f = true := by
    simp [broadcastCompatible]
  have hz : popStd (flattenF (bSub f f)) = 0 := by
    apply popStd_zero
    intro x hx
    rw [mem_flattenF] at hx
    obtain ⟨i, _, j, _, hval⟩ := hx
    rw [← hval]
    simp [bSub]
  simp [ti, hbc, hz]

lemma popStdR_zero (xs : List ℝ) (h : ∀ x ∈ xs, x = 0) : popStdR xs = 0 := by
  have hs : xs.sum = 0 := List.sum_eq_zero h
  unfold popStdR meanR
  rw [hs, zero_div]
  have h2 : (xs.map fun x => (x - 0) ^ 2).sum = 0 := by
    apply List.sum_eq_zero
    intro y hy
    rw [List.mem_map] at hy
    obtain ⟨x, hx, rfl⟩ := hy
    rw [h x hx]
    norm_num
  rw [h2, zero_div, Real.sqrt_zero]

lemma reflectIdx_lt {n : ℕ} (hn : 0 < n) (i : ℤ) : reflectIdx n i < n := by
  unfold reflectIdx
  split
  · exact hn
  · split
    · omega
    · omega

lemma atR_const {f : Frame} {c : ℚ} (hh : 0 < f.h) (hw : 0 < f.w)
    (hc : ∀ i, i < f.h → ∀ j, j < f.w → f.data i j = c) (i j : ℤ) :
    atR f i j = c := by
  unfold atR
  exact hc _ (reflectIdx_lt hh i) _ (reflectIdx_lt hw j)

lemma sobelAxis0_const {f : Frame} {c : ℚ} (hh : 0 < f.h) (hw : 0 < f.w)
    (hc : ∀ i, i < f.h → ∀ j, j < f.w → f.data i j = c) (i j : ℕ) :
    (sobelAxis0 f).data i j = 0 := by
  have hD : ∀ a b : ℕ, (correlate1d0 (-1) 0 1 f).data a b = 0 := by
    intro a b
    simp only [correlate1d0]
    rw [atR_const hh hw hc, atR_const hh hw hc, atR_const hh hw hc]
    ring
  have hDR : ∀ a b : ℤ, atR (correlate1d0 (-1) 0 1 f) a b = 0 := by
    intro a b
    unfold atR
    exact hD _ _
  simp only [sobelAxis0, correlate1d1]
  rw [hDR, hDR, hDR]
  ring

lemma sobelAxis1_const {f : Frame} {c : ℚ} (hh : 0 < f.h) (hw : 0 < f.w)
    (hc : ∀ i, i < f.h → ∀ j, j < f.w → f.data i j = c) (i j : ℕ) :
    (sobelAxis1 f).data i j = 0 := by
  have hD : ∀ a b : ℕ, (correlate1d1 (-1) 0 1 f).data a b = 0 := by
    intro a b
    simp only [correlate1d1]
    rw [atR_const hh hw hc, atR_const hh hw hc, atR_const hh hw hc]
    ring
  have hDR : ∀ a b : ℤ, atR (correlate1d1 (-1) 0 1 f) a b = 0 := by
    intro a b
    unfold atR
    exact hD _ _
  simp only [sobelAxis1, correlate1d0]
  rw [hDR, hDR, hDR]
  ring

/-- C7: the SI of a constant-intensity frame (width and height at least 3)
is zero — both Sobel responses vanish identically, so the gradient-magnitude
map is zero and so is its standard deviation. -/
theorem si_constant_frame (f : Frame) (c : ℚ) (hh : 3 ≤ f.h) (hw : 3 ≤ f.w)
    (hc : ∀ i, i < f.h → ∀ j, j < f.w → f.data i j = c) : si f = 0 := by
  have hh0 : 0 < f.h := by omega
  have hw0 : 0 < f.w := by omega
  unfold si
  apply popStdR_zero
  intro x hx
  simp only [List.mem_flatMap, List.mem_map, List.mem_range] at hx
  obtain ⟨i, _, j, _, rfl⟩ := hx
  rw [sobelAxis0_const hh0 hw0 hc, sobelAxis1_const hh0 hw0 hc]
  norm_num

/-- C7 (witness): the constant 3×3 frame of intensity 7 has SI zero. -/
theorem si_constant_frame_witness :
    3 ≤ (Frame.mk 3 3 fun _ _ => 7).h ∧ 3 ≤ (Frame.mk 3 3 fun _ _ => 7).w ∧
      si ⟨3, 3, fun _ _ => 7⟩ = 0 :=
  ⟨by decide, by decide,
    si_constant_frame ⟨3, 3, fun _ _ => 7⟩ 7 (by decide) (by decide)
      (fun i _ j _ => rfl)⟩

/-- C8 (witness): a concrete 1×1 frame against itself has TI zero. -/
theorem ti_identical_frames_witness :
    0 < (Frame.mk 1 1 fun _ _ => 0).h * (Frame.mk 1 1 fun _ _ => 0).w ∧
      ti ⟨1, 1, fun _ _ => 0⟩ (some ⟨1, 1, fun _ _ => 0⟩) = .ok (some 0) :=
  ⟨by decide, ti_identical_frames ⟨1, 1, fun _ _ => 0⟩ (by decide)⟩

lemma calcGo_cons_same_dims (H W : ℕ) (frames : List Frame)
    (hdim : ∀ f ∈ frames, f.h = H ∧ f.w = W) :
    ∀ (p : Frame), p.h = H → p.w = W → ∀ (sis tis : List ℝ) (cur : ℕ),
      ∃ sisX tisX, calcGo none frames (some p) sis tis cur =
        .ok (sis ++ sisX, tis ++ tisX, cur + frames.length) ∧
        sisX.length = frames.length ∧ tisX.length = frames.length := by
  induction frames with
  | nil =>
    intro p _ _ sis tis cur
    exact ⟨[], [], by simp [calcGo], rfl, rfl⟩
  | cons f rest ih =>
    intro p hph hpw sis tis cur
    have hf := hdim f (List.mem_cons_self f rest)
    have hbc : broadcastCompatible f p = true := by
      simp [broadcastCompatible, hf.1, hf.2, hph, hpw]
    obtain ⟨sisX, tisX, heq, hlen1, hlen2⟩ :=
      ih (fun g hg => hdim g (List.mem_cons_of_mem f hg)) f hf.1 hf.2
        (sis ++ [si f]) (tis ++ [popStd (flattenF (bSub f p))]) (cur + 1)
    refine ⟨[si f] ++ sisX, [popStd (flattenF (bSub f p))] ++ tisX, ?_,
      by simp [hlen1], by simp [hlen2]⟩
    have hstep : calcGo none (f :: rest) (some p) sis tis cur =
        calcGo none rest (some f) (sis ++ [si f])
          (tis ++ [popStd (flattenF (bSub f p))]) (cur + 1) := by
      simp [calcGo, ti, hbc]
    rw [hstep, heq]
    have hln : cur + 1 + rest.length = cur + (f :: rest).length := by
      simp
      omega
    rw [hln, ← List.append_assoc, ← List.append_assoc]

/-- C1 (counterexample): the claim states the TI sequence returned by
`calculate_si_ti` has length one less than the frame count; on two identical
1×1 frames the returned TI sequence has length 2 (a leading `0.0`
placeholder plus one pair value), not `2 - 1 = 1`. -/
theorem calculate_si_ti_ti_length_counterexample :
    Except.map (fun r => r.2.1.length)
        (calculate_si_ti [⟨1, 1, fun _ _ => 0⟩, ⟨1, 1, fun _ _ => 0⟩] none) = .ok 2 ∧
      (2 : ℕ) ≠
        ([⟨1, 1, fun _ _ => 0⟩, ⟨1, 1, fun _ _ => 0⟩] : List Frame).length - 1 := by
  constructor
  · have hbc : broadcastCompatible (Frame.mk 1 1 fun _ _ => 0) ⟨1, 1, fun _ _ => 0⟩ = true := rfl
    simp [calculate_si_ti, calcGo, ti, hbc, Except.map]
  · simp

/-- C1 (amended): for every nonempty input of `n` frames of one shared
frame geometry, processed without a frame-count limit, `calculate_si_ti`
returns an SI sequence of length `n` and a TI sequence of length `n`: a
leading `0.0` placeholder standing for the first frame followed by one
value per consecutive frame pair. -/
theorem calculate_si_ti_lengths (frames : List Frame) (H W : ℕ)
    (hne : frames ≠ []) (hdim : ∀ f ∈ frames, f.h = H ∧ f.w = W) :
    ∃ sis tis, calculate_si_ti frames none = .ok (sis, tis, frames.length) ∧
      sis.length = frames.length ∧ tis.length = frames.length ∧
      tis.head? = some 0 := by
  cases frames with
  | nil => exact absurd rfl hne
  | cons f rest =>
    have hf := hdim f (List.mem_cons_self f rest)
    obtain ⟨sisX, tisX, heq, h1, h2⟩ :=
      calcGo_cons_same_dims H W rest (fun g hg => hdim g (List.mem_cons_of_mem f hg))
        f hf.1 hf.2 [si f] [0] 1
    refine ⟨[si f] ++ sisX, [0] ++ tisX, ?_, by simp [h1], by simp [h2], by simp⟩
    have hstep : calculate_si_ti (f :: rest) none =
        calcGo none rest (some f) [si f] [0] 1 := by
      simp [calculate_si_ti, calcGo, ti]
    rw [hstep, heq]
    have hln : 1 + rest.length = (f :: rest).length := by simp [Nat.add_comm]
    rw [hln]

/-- C1 (witness for the amended theorem): two identical 1×1 frames yield SI
and TI sequences of length 2, the TI sequence starting with the `0.0`
placeholder. -/
theorem calculate_si_ti_lengths_witness :
    ([⟨1, 1, fun _ _ => 0⟩, ⟨1, 1, fun _ _ => 0⟩] : List Frame) ≠ [] ∧
      (∃ sis tis,
        calculate_si_ti [⟨1, 1, fun _ _ => 0⟩, ⟨1, 1, fun _ _ => 0⟩] none =
          .ok (sis, tis, ([⟨1, 1, fun _ _ => 0⟩, ⟨1, 1, fun _ _ => 0⟩] : List Frame).length) ∧
        sis.length = ([⟨1, 1, fun _ _ => 0⟩, ⟨1, 1, fun _ _ => 0⟩] : List Frame).length ∧
        tis.length = ([⟨1, 1, fun _ _ => 0⟩, ⟨1, 1, fun _ _ => 0⟩] : List Frame).length ∧
        tis.head? = some 0) :=
  ⟨List.cons_ne_nil _ _,
    calculate_si_ti_lengths [⟨1, 1, fun _ _ => 0⟩, ⟨1, 1, fun _ _ => 0⟩] 1 1
      (List.cons_ne_nil _ _)
      (fun g hg => by
        rcases List.mem_cons.mp hg with rfl | hg2
        · exact ⟨rfl, rfl⟩
        · rcases List.mem_cons.mp hg2 with rfl | hg3
          · exact ⟨rfl, rfl⟩
          · exact absurd hg3 (List.not_mem_nil g))⟩

end Siti
